import Mathlib

/-!
Shallow embedding of `second-stage/programs/eval-weights/dp-data.h`
(reader for discriminative-parsing data files), together with proofs
about its reading loops, scoring, suffix-dispatched decompression and
ownership (deep-copy) semantics.

The input stream is modelled as a list of characters consumed from the
front.  `fscanf`/`fgets`/`fgetc` are modelled by explicit functions on
that list.  The external capabilities of `tree.h` and the bracket
scorer (`precrec_type`), whose sources are not part of this component,
are abstracted into an `Extern` structure of functions, following the
spec's description of them as consumed external interfaces.
-/

deriving instance DecidableEq for Except

/-- The byte stream a `FILE*` reads from, consumed from the front. -/
abbrev CStream := List Char

/-- Whitespace as recognized by `isspace` in the C locale. -/
def isWS (c : Char) : Bool :=
  c = ' ' || c = '\t' || c = '\n' || c = '\r' || c = '\x0b' || c = '\x0c'

/-- Skip leading whitespace, as a leading blank in a `fscanf` format does. -/
def skipWS (s : CStream) : CStream := s.dropWhile isWS

/-- Numeric value of a digit string (most significant digit first). -/
def natOfDigits (ds : List Char) : Nat :=
  ds.foldl (fun a c => 10 * a + (c.toNat - 48)) 0

/-- Models `fscanf(fp, " %u ")`: skip whitespace, scan a digit run, skip
trailing whitespace.  Returns `none` (the `nread != 1` case) when no digit
follows the leading whitespace; the offending character is pushed back. -/
def scanUInt (s : CStream) : Option Nat × CStream :=
  let s1 := skipWS s
  let ds := s1.takeWhile Char.isDigit
  if ds.isEmpty then (none, s1)
  else (some (natOfDigits ds), skipWS (s1.dropWhile Char.isDigit))

/-- Exponent part of a C float literal; consumed only when well formed. -/
def scanExp (s : CStream) : Int × CStream :=
  match s with
  | c :: r =>
    if c = 'e' || c = 'E' then
      match r with
      | '-' :: r2 =>
        let ds := r2.takeWhile Char.isDigit
        if ds.isEmpty then (0, s) else (-(natOfDigits ds : Int), r2.dropWhile Char.isDigit)
      | '+' :: r2 =>
        let ds := r2.takeWhile Char.isDigit
        if ds.isEmpty then (0, s) else ((natOfDigits ds : Int), r2.dropWhile Char.isDigit)
      | _ =>
        let ds := r.takeWhile Char.isDigit
        if ds.isEmpty then (0, s) else ((natOfDigits ds : Int), r.dropWhile Char.isDigit)
    else (0, s)
  | [] => (0, s)

/-- Models `fscanf(fp, " %lf ")`: optional sign, digits with optional
fractional part, optional exponent; at least one mantissa digit required.
Values are carried as rationals. -/
def scanFloat (s : CStream) : Option Rat × CStream :=
  let s1 := skipWS s
  let signSplit : Bool × CStream :=
    match s1 with
    | '-' :: r => (true, r)
    | '+' :: r => (false, r)
    | _ => (false, s1)
  let neg := signSplit.1
  let s2 := signSplit.2
  let ip := s2.takeWhile Char.isDigit
  let s3 := s2.dropWhile Char.isDigit
  let fracSplit : List Char × CStream :=
    match s3 with
    | '.' :: r => (r.takeWhile Char.isDigit, r.dropWhile Char.isDigit)
    | _ => ([], s3)
  let fp := fracSplit.1
  let s4 := fracSplit.2
  if ip.isEmpty && fp.isEmpty then (none, s1)
  else
    let mant : Rat := (natOfDigits ip : Rat) + (natOfDigits fp : Rat) / ((10 : Rat) ^ fp.length)
    let m := if neg then -mant else mant
    let es := scanExp s4
    (some (m * (10 : Rat) ^ es.1), skipWS es.2)

/-- Helper for `fgets`: take at most `k` characters, stopping after the
first newline (which is kept in the buffer). -/
def fgetsAux : Nat → CStream → List Char × CStream
  | 0, s => ([], s)
  | _ + 1, [] => ([], [])
  | k + 1, c :: r =>
    if c = '\n' then ([c], r)
    else
      let t := fgetsAux k r
      (c :: t.1, t.2)

/-- Models `fgets(buffer, n, fp)`: reads at most `n - 1` characters,
stopping after a newline; returns `none` exactly when the stream is
already at end of file (the `ret == NULL` case). -/
def fgets (n : Nat) (s : CStream) : Option (List Char × CStream) :=
  if s.isEmpty then none else some (fgetsAux (n - 1) s)

/-- Models the `while ((c = fgetc(fp)) != EOF && c != '\n')` skip loop. -/
def skipToEol : CStream → CStream
  | [] => []
  | c :: r => if c = '\n' then r else skipToEol r

/-- Modelled from the spec: the external capabilities consumed by the
reader, whose implementations (`tree.h`, `precrec.h`) are outside this
component.  `readtree` parses one bracketed line into a tree (`none` is
the NULL / parse-failure result); `goldEdges` is `precrec_type::edges`
built from the gold tree; `edgesCount` is its `nedges()`; `cmp` is
`precrec_type pr(gold_edges, parse)`, returning `(pr.ntest, pr.ncommon)`,
the candidate edge count and the common edge count. -/
structure Extern (T ES : Type) where
  readtree : List Char → Bool → Option T
  goldEdges : T → ES
  edgesCount : ES → Nat
  cmp : ES → Option T → Nat × Nat

/-- Modelled from the spec: `precrec_type::f_score()` from the external
bracket scorer — `2*common/(candidate_edges+gold_edges)`, and `0` when
the denominator is zero. -/
def fscoreOf (ngold ntest ncommon : Nat) : Rat :=
  if ntest + ngold = 0 then 0 else (2 * ncommon : Rat) / ((ntest : Rat) + (ngold : Rat))

/-- `parse_type`: data for one candidate parse (dp-data.h lines 38-109).
The owned `tree*` is `parse`; `none` models the NULL pointer. -/
structure parse_type (T : Type) where
  logprob : Rat
  nedges : Nat
  ncorrect : Nat
  f_score : Rat
  parse : Option T
deriving DecidableEq

/-- The default constructor `parse_type()`. -/
def parse_type.mkDefault (T : Type) : parse_type T :=
  { logprob := 0, nedges := 0, ncorrect := 0, f_score := 0, parse := none }

instance : Inhabited (parse_type T) := ⟨parse_type.mkDefault T⟩

/-- `parse_type::read` (dp-data.h lines 81-108): free the old tree, scan
the log probability, then either skip the tree line (`ignore_trees`) or
read one line with a 4000-byte buffer and parse it. -/
def parse_type.read (E : Extern T ES) (p : parse_type T) (downcase ignore : Bool)
    (s : CStream) : Bool × parse_type T × CStream :=
  let p0 : parse_type T := { p with parse := none }
  match scanFloat s with
  | (none, s1) => (false, p0, s1)
  | (some lp, s1) =>
    let p1 : parse_type T := { p0 with logprob := lp }
    if ignore then (true, p1, skipToEol s1)
    else
      match fgets 4000 s1 with
      | none => (false, p1, s1)
      | some (buf, s2) => (true, { p1 with parse := E.readtree buf downcase }, s2)

/-- `sentence_type`: one gold tree plus its candidate parses
(dp-data.h lines 118-245). -/
structure sentence_type (T : Type) where
  gold : Option T
  gold_nedges : Nat
  max_fscore : Rat
  parses : List (parse_type T)
deriving DecidableEq

/-- The default constructor `sentence_type()`. -/
def sentence_type.mkDefault (T : Type) : sentence_type T :=
  { gold := none, gold_nedges := 0, max_fscore := 0, parses := [] }

/-- `std::vector::resize(n)` on the parses vector: keep the first `n`
elements, default-construct the rest. -/
def resizeParses (ps : List (parse_type T)) (n : Nat) : List (parse_type T) :=
  ps.take n ++ List.replicate (n - ps.length) (parse_type.mkDefault T)

/-- The `f_score > max_fscore` running-maximum update of
`sentence_type::read` (dp-data.h lines 235-236). -/
def updMax (m f : Rat) : Rat := if f > m then f else m

/-- The scoring step of `sentence_type::read` (dp-data.h lines 230-234):
`precrec_type pr(gold_edges, parses[i].parse)` and the stores of
`pr.ntest`, `pr.ncommon` and `pr.f_score()` into the record. -/
def scoreParse (E : Extern T ES) (ge : ES) (p : parse_type T) : parse_type T :=
  let tc := E.cmp ge p.parse
  { p with nedges := tc.1, ncorrect := tc.2,
           f_score := fscoreOf (E.edgesCount ge) tc.1 tc.2 }

/-- The candidate loop of `sentence_type::read` (dp-data.h lines
228-241), walking the resized parses vector in order: each slot is read
in place, then scored against the precomputed gold edges; a failed
candidate read aborts the loop leaving the remaining slots untouched. -/
def parsesLoop (E : Extern T ES) (ge : ES) (downcase ignore : Bool) :
    List (parse_type T) → Rat → CStream → Bool × List (parse_type T) × Rat × CStream
  | [], m, s => (true, [], m, s)
  | p :: rest, m, s =>
    match parse_type.read E p downcase ignore s with
    | (false, p1, s1) => (false, p1 :: rest, m, s1)
    | (true, p1, s1) =>
      let p2 := scoreParse E ge p1
      let out := parsesLoop E ge downcase ignore rest (updMax m p2.f_score) s1
      (out.1, p2 :: out.2.1, out.2.2.1, out.2.2.2)

/-- The body of `sentence_type::read` after the candidate count and the
gold line have been consumed: `assert(gold != NULL)` (an `Except.error`
models the tripped assertion), gold-edge precomputation,
`parses.resize(nparses)`, and the candidate loop. -/
def sentence_type.readBody (E : Extern T ES) (snt : sentence_type T)
    (downcase ignore : Bool) (nparses : Nat) (gold : Option T) (s : CStream) :
    Except Unit (Bool × sentence_type T × CStream) :=
  match gold with
  | none => Except.error ()
  | some g =>
    let ge := E.goldEdges g
    let gn := E.edgesCount ge
    let ps := resizeParses snt.parses nparses
    let out := parsesLoop E ge downcase ignore ps snt.max_fscore s
    Except.ok (out.1, { gold := some g, gold_nedges := gn,
                        max_fscore := out.2.2.1, parses := out.2.1 }, out.2.2.2)

/-- `sentence_type::read` (dp-data.h lines 185-244): free the gold tree,
scan the candidate count (on failure the error report consumes up to
1000 characters with `getc`), then read the gold line — with
`ignore_trees` the line is skipped and `gold` stays NULL, so the
subsequent `assert(gold != NULL)` trips — and run the candidate loop. -/
def sentence_type.read (E : Extern T ES) (snt : sentence_type T)
    (downcase ignore : Bool) (s : CStream) :
    Except Unit (Bool × sentence_type T × CStream) :=
  let snt0 : sentence_type T := { snt with gold := none }
  match scanUInt s with
  | (none, s1) => Except.ok (false, snt0, s1.drop 1000)
  | (some nparses, s1) =>
    if ignore then
      sentence_type.readBody E snt0 downcase ignore nparses none (skipToEol s1)
    else
      match fgets 4000 s1 with
      | none => Except.ok (false, snt0, s1)
      | some (buf, s2) =>
        sentence_type.readBody E snt0 downcase ignore nparses (E.readtree buf downcase) s2

/-- `corpus_type`: the whole corpus (dp-data.h lines 254-348). -/
structure corpus_type (T : Type) where
  sentences : List (sentence_type T)
deriving DecidableEq

/-- `nsentences()` accessor. -/
def corpus_type.nsentences (c : corpus_type T) : Nat := c.sentences.length

/-- `std::vector::resize(n)` on the sentences vector. -/
def resizeSentences (l : List (sentence_type T)) (n : Nat) : List (sentence_type T) :=
  l.take n ++ List.replicate (n - l.length) (sentence_type.mkDefault T)

/-- The sentence loop of `corpus_type::read` (dp-data.h lines 308-312):
each slot of the resized vector is read in place; the first failure
aborts, leaving the later slots default-constructed. -/
def corpusLoop (E : Extern T ES) (downcase ignore : Bool) :
    List (sentence_type T) → CStream → Except Unit (Bool × List (sentence_type T) × CStream)
  | [], s => Except.ok (true, [], s)
  | snt :: rest, s =>
    match sentence_type.read E snt downcase ignore s with
    | Except.error e => Except.error e
    | Except.ok (false, snt1, s1) => Except.ok (false, snt1 :: rest, s1)
    | Except.ok (true, snt1, s1) =>
      match corpusLoop E downcase ignore rest s1 with
      | Except.error e => Except.error e
      | Except.ok (okr, rest1, s2) => Except.ok (okr, snt1 :: rest1, s2)

/-- `corpus_type::read` (dp-data.h lines 300-314): scan the sentence
count, resize the sentences vector to it up front, then read each
sentence in order, returning false on the first failure. -/
def corpus_type.read (E : Extern T ES) (c : corpus_type T) (downcase ignore : Bool)
    (s : CStream) : Except Unit (Bool × corpus_type T × CStream) :=
  match scanUInt s with
  | (none, s1) => Except.ok (false, c, s1)
  | (some n, s1) =>
    match corpusLoop E downcase ignore (resizeSentences c.sentences n) s1 with
    | Except.error e => Except.error e
    | Except.ok (ok, sents, s2) => Except.ok (ok, { sentences := sents }, s2)

/-- The sentence loop of `corpus_type::map_sentences` (dp-data.h lines
328-334): a single local `sentence_type` is reused for every read, and
the visitor is applied to it after each successful read. -/
def mapLoop (E : Extern T ES) (proc : sentence_type T → σ → σ) (downcase ignore : Bool) :
    Nat → sentence_type T → σ → CStream → Except Unit (Bool × σ × CStream)
  | 0, _, acc, s => Except.ok (true, acc, s)
  | r + 1, snt, acc, s =>
    match sentence_type.read E snt downcase ignore s with
    | Except.error e => Except.error e
    | Except.ok (false, _, s1) => Except.ok (false, acc, s1)
    | Except.ok (true, snt1, s1) => mapLoop E proc downcase ignore r snt1 (proc snt1 acc) s1

/-- `corpus_type::map_sentences` (dp-data.h lines 318-336): scan the
sentence count, then read that many sentences into one reused local
record, invoking `proc` on each; returns the declared count on success
and 0 on any failure. -/
def corpus_type.map_sentences (E : Extern T ES) (proc : sentence_type T → σ → σ)
    (downcase ignore : Bool) (acc : σ) (s : CStream) : Except Unit (Nat × σ × CStream) :=
  match scanUInt s with
  | (none, s1) => Except.ok (0, acc, s1)
  | (some n, s1) =>
    match mapLoop E proc downcase ignore n (sentence_type.mkDefault T) acc s1 with
    | Except.error e => Except.error e
    | Except.ok (ok, acc1, s2) => Except.ok (if ok then n else 0, acc1, s2)

/-- Byte value after `tolower`, as `strcasecmp` applies it. -/
def lowNat (c : Char) : Nat :=
  if 65 ≤ c.toNat ∧ c.toNat ≤ 90 then c.toNat + 32 else c.toNat

/-- `strcasecmp(a, b) == 0`: the lowered byte sequences coincide. -/
def strcaseEq (a b : List Char) : Prop := a.map lowNat = b.map lowNat

instance (a b : List Char) : Decidable (strcaseEq a b) := by
  unfold strcaseEq; infer_instance

/-- `strrchr(filename, '.')` viewed as the suffix it points at: the part
of the name from the final dot on, or `none` when no dot occurs. -/
def lastSuffix (f : List Char) : Option (List Char) :=
  let post := f.reverse.takeWhile (fun c => c ≠ '.')
  if post.length = f.length then none else some ('.' :: post.reverse)

/-- The shell command built by `corpus_type::popen_decompress`
(dp-data.h lines 284-296).  A filename without a dot makes `strrchr`
return NULL, which is passed straight to `strcasecmp`: undefined
behavior, modelled as `none`. -/
def corpus_type.popen_command (f : List Char) : Option (List Char) :=
  match lastSuffix f with
  | none => none
  | some suf =>
    some ((if strcaseEq suf ".bz2".toList then "bzcat ".toList
           else if strcaseEq suf ".gz".toList then "gunzip -c ".toList
           else "cat ".toList) ++ f)

/-- Outcome of opening the decompression source: a stream, or the
`exit(EXIT_FAILURE)` taken when `popen` returns NULL. -/
inductive OpenResult (St : Type) where
  | stream (st : St)
  | fatalExit
deriving DecidableEq

/-- `corpus_type::popen_decompress` over a stubbed process launcher:
build the command, launch it, and exit fatally when the launch fails. -/
def corpus_type.popen_decompress (launch : List Char → Option St) (f : List Char) :
    Option (OpenResult St) :=
  (corpus_type.popen_command f).map fun cmd =>
    match launch cmd with
    | none => OpenResult.fatalExit
    | some st => OpenResult.stream st

/-- The filename ends with `pat` up to letter case (the spec's
"case-insensitive suffix"). -/
def endsCI (f pat : List Char) : Prop :=
  (f.reverse.take pat.length).map lowNat = pat.reverse.map lowNat

instance (f pat : List Char) : Decidable (endsCI f pat) := by
  unfold endsCI; infer_instance

/-!  Ownership model for claims about copy construction and assignment.
A heap tree is its allocation identity plus its structural value; the
allocator is a counter handing out one fresh identity per `copy_tree`
call.  Two records alias a tree exactly when they hold the same
identity. -/

/-- A `tree*`: allocation identity `oid` plus structural value `tval`. -/
structure TreeObj (V : Type) where
  oid : Nat
  tval : V
deriving DecidableEq

namespace Own

/-- `parse_type` viewed with pointer identity, for copy/assignment. -/
structure parse (V : Type) where
  logprob : Rat
  nedges : Nat
  ncorrect : Nat
  f_score : Rat
  parse : Option (TreeObj V)
deriving DecidableEq

/-- `sentence_type` viewed with pointer identity. -/
structure sentence (V : Type) where
  gold : Option (TreeObj V)
  gold_nedges : Nat
  max_fscore : Rat
  parses : List (parse V)
deriving DecidableEq

/-- `parse_type::operator=` (dp-data.h lines 55-66) for distinct
objects: scalars copied, then `parse = dp.parse->copy_tree()` — the
source pointer is dereferenced unconditionally, so a NULL source tree
is undefined behavior (`none`).  `c` is the allocation counter. -/
def passign (c : Nat) (dst src : parse V) : Option (parse V × Nat) :=
  match src.parse with
  | none => none
  | some t => some ({ src with parse := some ⟨c, t.tval⟩ }, c + 1)

/-- `parse_type` copy constructor (dp-data.h lines 70-77): the NULL
source tree is guarded, a non-NULL one is deep-copied. -/
def pcopy (c : Nat) (src : parse V) : parse V × Nat :=
  match src.parse with
  | none => ({ src with parse := none }, c)
  | some t => ({ src with parse := some ⟨c, t.tval⟩ }, c + 1)

/-- Element-wise copy construction of a parses vector. -/
def pcopyList : Nat → List (parse V) → List (parse V) × Nat
  | c, [] => ([], c)
  | c, p :: r =>
    let x := pcopy c p
    let y := pcopyList x.2 r
    (x.1 :: y.1, y.2)

/-- `std::vector<parse_type>::operator=`: slots present on both sides
are element-assigned, extra source elements are copy-constructed, extra
destination slots are destroyed. -/
def passignList : Nat → List (parse V) → List (parse V) → Option (List (parse V) × Nat)
  | c, [], srcs => some (pcopyList c srcs)
  | c, _ :: _, [] => some ([], c)
  | c, d :: ds, sp :: ss =>
    match passign c d sp with
    | none => none
    | some (p1, c1) =>
      match passignList c1 ds ss with
      | none => none
      | some (r, c2) => some (p1 :: r, c2)

/-- `sentence_type` copy constructor (dp-data.h lines 174-181): the
parses vector is copy-constructed and the gold tree deep-copied with a
NULL guard. -/
def scopy (c : Nat) (src : sentence V) : sentence V × Nat :=
  let ps := pcopyList c src.parses
  match src.gold with
  | none => ({ src with gold := none, parses := ps.1 }, ps.2)
  | some g => ({ src with gold := some ⟨ps.2, g.tval⟩, parses := ps.1 }, ps.2 + 1)

/-- `sentence_type::operator=` (dp-data.h lines 157-170) for distinct
objects: scalars copied, parses vector assigned, gold deep-copied with
a NULL guard. -/
def sassign (c : Nat) (dst src : sentence V) : Option (sentence V × Nat) :=
  match passignList c dst.parses src.parses with
  | none => none
  | some (ps, c1) =>
    match src.gold with
    | none => some ({ src with gold := none, parses := ps }, c1)
    | some g => some ({ src with gold := some ⟨c1, g.tval⟩, parses := ps }, c1 + 1)

/-- Allocation identities held by a candidate record. -/
def pids (p : parse V) : List Nat :=
  match p.parse with
  | none => []
  | some t => [t.oid]

/-- Allocation identities held by a sentence record. -/
def sids (s : sentence V) : List Nat :=
  (match s.gold with
   | none => []
   | some t => [t.oid]) ++ (s.parses.map pids).flatten

/-- Structural value of a candidate record's tree. -/
def pval (p : parse V) : Option V := p.parse.map TreeObj.tval

/-- Structural value of a sentence record's gold tree. -/
def goldval (s : sentence V) : Option V := s.gold.map TreeObj.tval

end Own

/-- Agreement of two sentence records on everything except the running
maximum f-score: same gold tree, same gold edge count, same scored
parses (hence the same per-parse f-scores). -/
def coreEq (a b : sentence_type T) : Prop :=
  a.gold = b.gold ∧ a.gold_nedges = b.gold_nedges ∧ a.parses = b.parses

/-- Success flag of a sentence-level read; `none` when the read crashed
on the `assert(gold != NULL)`. -/
def sentReadFlag (r : Except Unit (Bool × sentence_type T × CStream)) : Option Bool :=
  match r with
  | Except.error _ => none
  | Except.ok (b, _, _) => some b

/-- Record produced by a sentence-level read (default if it crashed). -/
def sentReadRec (r : Except Unit (Bool × sentence_type T × CStream)) : sentence_type T :=
  match r with
  | Except.error _ => sentence_type.mkDefault T
  | Except.ok (_, snt, _) => snt

/-- Flag and resulting length of a corpus-level read. -/
def corpReadFlagLen (r : Except Unit (Bool × corpus_type T × CStream)) : Option (Bool × Nat) :=
  match r with
  | Except.error _ => none
  | Except.ok (b, c, _) => some (b, c.nsentences)

/-- Corpus produced by a corpus-level read (empty if it crashed). -/
def corpReadRec (r : Except Unit (Bool × corpus_type T × CStream)) : corpus_type T :=
  match r with
  | Except.error _ => { sentences := [] }
  | Except.ok (_, c, _) => c

/-- Count and accumulated visits of a `map_sentences` run. -/
def mapReadOut (r : Except Unit (Nat × σ × CStream)) : Option (Nat × σ) :=
  match r with
  | Except.error _ => none
  | Except.ok (n, acc, _) => some (n, acc)

/-- A concrete instantiation of the external capabilities, for running
the reader on sample inputs: a tree is its raw line text, the gold edge
set is the gold line itself, and comparison counts characters. -/
def E0 : Extern (List Char) (List Char) where
  readtree := fun l _ => some l
  goldEdges := fun g => g
  edgesCount := fun g => g.length
  cmp := fun g p => ((p.getD []).length, min g.length (p.getD []).length)

/-- A concrete instantiation whose scorer reports 10 gold edges and, for
a candidate, 10 candidate edges with 9 common edges when its line starts
with 'a' and 2 otherwise — so such candidates score 0.9 and 0.2. -/
def E2 : Extern (List Char) Unit where
  readtree := fun l _ => some l
  goldEdges := fun _ => ()
  edgesCount := fun _ => 10
  cmp := fun _ p =>
    (10, match p with
         | some ('a' :: _) => 9
         | _ => 2)

/-- The accumulating visitor of the refinement claim: append every
visited sentence record to a list. -/
def accVisitor (snt : sentence_type T) (l : List (sentence_type T)) :
    List (sentence_type T) := l ++ [snt]

/-- Stream position after a sentence-level read; `none` when it crashed. -/
def sentReadRest (r : Except Unit (Bool × sentence_type T × CStream)) : Option CStream :=
  match r with
  | Except.error _ => none
  | Except.ok (_, _, t) => some t

/-- A 1-sentence sample corpus stream: header 1, then a sentence with 0
candidates and gold line `(a)`. -/
def w1corpus : CStream := "1 0 (a)\n".toList

/-- Run of `corpus_type::read` on the sample corpus. -/
def C1run : Except Unit (Bool × corpus_type (List Char) × CStream) :=
  corpus_type.read E0 { sentences := [] } false false w1corpus

/-- Flag of the sample run. -/
def C1b : Bool :=
  match C1run with
  | Except.ok (b, _, _) => b
  | Except.error _ => false

/-- Corpus of the sample run. -/
def C1c : corpus_type (List Char) := corpReadRec C1run

/-- Stream tail of the sample run. -/
def C1t : CStream :=
  match C1run with
  | Except.ok (_, _, t) => t
  | Except.error _ => []

/-- A 1-candidate sentence stream whose candidate line starts with 'a'
(scores 0.9 under `E2`). -/
def w1sent : CStream := "1 (g)\n1 a\n".toList

/-- A 1-candidate sentence stream whose candidate line starts with 'b'
(scores 0.2 under `E2`). -/
def w2sent : CStream := "1 (h)\n1 b\n".toList

/-- First read into a fresh sentence record. -/
def C2run1 : Except Unit (Bool × sentence_type (List Char) × CStream) :=
  sentence_type.read E2 (sentence_type.mkDefault (List Char)) false false w1sent

/-- The record after the first read. -/
def C2out1 : sentence_type (List Char) := sentReadRec C2run1

/-- Second read reusing the same record, as `map_sentences` does. -/
def C2run2 : Except Unit (Bool × sentence_type (List Char) × CStream) :=
  sentence_type.read E2 C2out1 false false w2sent

/-- The record after the second read. -/
def C2out2 : sentence_type (List Char) := sentReadRec C2run2

/-- The stream tail after the second read. -/
def C2rest2 : CStream := (sentReadRest C2run2).getD []

/-- A 2-sentence sample corpus with no candidates. -/
def w2corpus : CStream := "2 0 (a)\n0 (b)\n".toList

/-- Visitor-mode run over the 2-sentence sample. -/
def C3wRun : Except Unit (Nat × List (sentence_type (List Char)) × CStream) :=
  corpus_type.map_sentences E0 accVisitor false false [] w2corpus

/-- Count returned by the visitor-mode sample run. -/
def C3wN : Nat :=
  match C3wRun with
  | Except.ok (n, _, _) => n
  | Except.error _ => 0

/-- Accumulated visits of the visitor-mode sample run. -/
def C3wAcc : List (sentence_type (List Char)) :=
  match C3wRun with
  | Except.ok (_, acc, _) => acc
  | Except.error _ => []

/-- Stream tail of the visitor-mode sample run. -/
def C3wT : CStream :=
  match C3wRun with
  | Except.ok (_, _, t) => t
  | Except.error _ => []

/-- A 2-sentence corpus whose first sentence scores 0.9 and second 0.2
under `E2`. -/
def cxcorpus : CStream := "2 1 (g)\n1 a\n1 (h)\n1 b\n".toList

/-- Visitor accumulation over `cxcorpus`. -/
def C3cexMapAcc : List (sentence_type (List Char)) :=
  match corpus_type.map_sentences E2 accVisitor false false [] cxcorpus with
  | Except.ok (_, acc, _) => acc
  | Except.error _ => []

/-- Corpus read over `cxcorpus`. -/
def C3cexCorp : corpus_type (List Char) :=
  corpReadRec (corpus_type.read E2 { sentences := [] } false false cxcorpus)

/-- Run of a well-formed 1-candidate sentence used as a sample. -/
def C6run : Except Unit (Bool × sentence_type (List Char) × CStream) :=
  sentence_type.read E2 (sentence_type.mkDefault (List Char)) false false w1sent

/-- The record read by the sample run. -/
def C6out : sentence_type (List Char) := sentReadRec C6run

/-- The stream tail of the sample run. -/
def C6rest : CStream := (sentReadRest C6run).getD []

/-- The corpus body of `cxcorpus` after its header count. -/
def cxtail : CStream := "1 (g)\n1 a\n1 (h)\n1 b\n".toList

/-- First sentence read of the 2-sentence corpus body (both modes). -/
def X1run : Except Unit (Bool × sentence_type (List Char) × CStream) :=
  sentence_type.read E2 (sentence_type.mkDefault (List Char)) false false cxtail

/-- Record of the first sentence. -/
def X1out : sentence_type (List Char) := sentReadRec X1run

/-- Stream after the first sentence. -/
def X1t : CStream := (sentReadRest X1run).getD []

/-- Second sentence read in visitor mode: the record is reused. -/
def X2run : Except Unit (Bool × sentence_type (List Char) × CStream) :=
  sentence_type.read E2 X1out false false X1t

/-- Record visited second in visitor mode. -/
def X2out : sentence_type (List Char) := sentReadRec X2run

/-- Stream after the second sentence in visitor mode. -/
def X2t : CStream := (sentReadRest X2run).getD []

/-- Second sentence read in corpus mode: a default-constructed slot. -/
def Y2run : Except Unit (Bool × sentence_type (List Char) × CStream) :=
  sentence_type.read E2 (sentence_type.mkDefault (List Char)) false false X1t

/-- Second corpus-mode record. -/
def Y2out : sentence_type (List Char) := sentReadRec Y2run

/-- Stream after the second sentence in corpus mode. -/
def Y2t : CStream := (sentReadRest Y2run).getD []

/-- A sample candidate record holding tree instance 5 with value 9. -/
def pfullRec : Own.parse Nat :=
  { logprob := 1, nedges := 2, ncorrect := 1, f_score := 0, parse := some ⟨5, 9⟩ }

/-- A sample candidate record holding no tree (NULL). -/
def pnullRec : Own.parse Nat :=
  { logprob := 0, nedges := 0, ncorrect := 0, f_score := 0, parse := none }

/-- A sample sentence record: gold tree instance 3 value 7, one
candidate with tree instance 5 value 9. -/
def sentRecSample : Own.sentence Nat :=
  { gold := some ⟨3, 7⟩, gold_nedges := 4, max_fscore := 0, parses := [pfullRec] }

/-! Helper lemmas about the stream primitives. -/

theorem takeWhile_app (P : Char → Bool) :
    ∀ (l t : List Char), (∀ c ∈ l, P c = true) →
      (l ++ t).takeWhile P = l ++ t.takeWhile P := by
  intro l
  induction l with
  | nil => intro t _; rfl
  | cons c l ih =>
    intro t h
    have hc : P c = true := h c (by simp)
    simp [List.takeWhile_cons, hc, ih t (fun x hx => h x (by simp [hx]))]

theorem dropWhile_app (P : Char → Bool) :
    ∀ (l t : List Char), (∀ c ∈ l, P c = true) →
      (l ++ t).dropWhile P = t.dropWhile P := by
  intro l
  induction l with
  | nil => intro t _; rfl
  | cons c l ih =>
    intro t h
    have hc : P c = true := h c (by simp)
    simp [List.dropWhile_cons, hc, ih t (fun x hx => h x (by simp [hx]))]

theorem digit_not_ws (c : Char) (h : c.isDigit = true) : isWS c = false := by
  by_contra hne
  rw [Bool.not_eq_false] at hne
  simp only [isWS, Bool.or_eq_true, decide_eq_true_eq] at hne
  rcases hne with ((((rfl | rfl) | rfl) | rfl) | rfl) | rfl <;>
    exact absurd h (by decide)

theorem scanUInt_lit (rep : List Char) (t : CStream) (hne : rep ≠ [])
    (hd : ∀ c ∈ rep, c.isDigit = true) :
    scanUInt (rep ++ '\n' :: t) = (some (natOfDigits rep), skipWS t) := by
  have hws : ∀ c ∈ rep, isWS c = false := fun c hc => digit_not_ws c (hd c hc)
  have h1 : skipWS (rep ++ '\n' :: t) = rep ++ '\n' :: t := by
    rcases rep with _ | ⟨c, l⟩
    · exact absurd rfl hne
    · simp [skipWS, List.dropWhile_cons, hws c (by simp)]
  have h2 : (rep ++ '\n' :: t).takeWhile Char.isDigit = rep := by
    rw [takeWhile_app _ _ _ hd]
    simp [List.takeWhile_cons]
  have h3 : (rep ++ '\n' :: t).dropWhile Char.isDigit = '\n' :: t := by
    rw [dropWhile_app _ _ _ hd]
    simp [List.dropWhile_cons]
  have h4 : rep.isEmpty = false := by
    rcases rep with _ | ⟨c, l⟩
    · exact absurd rfl hne
    · rfl
  have h5 : isWS '\n' = true := by decide
  simp only [scanUInt, skipWS] at h1 ⊢
  simp only [h1, h2, h3, h4, Bool.false_eq_true, if_false, List.dropWhile_cons, h5, if_true]

theorem fgetsAux_line :
    ∀ (l : List Char) (k : Nat) (t : CStream), '\n' ∉ l → l.length < k →
      fgetsAux k (l ++ '\n' :: t) = (l ++ ['\n'], t) := by
  intro l
  induction l with
  | nil =>
    intro k t _ hk
    rcases k with _ | k
    · omega
    · simp [fgetsAux]
  | cons c l ih =>
    intro k t hnl hk
    rcases k with _ | k
    · omega
    · have hc : c ≠ '\n' := fun h => hnl (by simp [h])
      simp only [List.cons_append, fgetsAux, if_neg hc, List.append_eq]
      rw [ih k t (fun h => hnl (by simp [h])) (by simpa using hk)]

theorem fgets_line (l : List Char) (t : CStream) (h : '\n' ∉ l)
    (hk : l.length ≤ 3998) :
    fgets 4000 (l ++ '\n' :: t) = some (l ++ ['\n'], t) := by
  have hne : (l ++ '\n' :: t).isEmpty = false := by
    cases l <;> rfl
  rw [fgets, hne]
  simp only [Bool.false_eq_true, if_false]
  exact congrArg some (fgetsAux_line l 3999 t h (by omega))

theorem fgetsAux_repl (c : Char) (hc : c ≠ '\n') :
    ∀ (k m : Nat) (t : CStream), k ≤ m →
      fgetsAux k (List.replicate m c ++ t) =
        (List.replicate k c, List.replicate (m - k) c ++ t) := by
  intro k
  induction k with
  | zero => intro m t _; simp [fgetsAux]
  | succ k ih =>
    intro m t hk
    rcases m with _ | m
    · omega
    · simp only [List.replicate_succ, List.cons_append, fgetsAux, if_neg hc, List.append_eq]
      rw [ih m t (by omega)]
      simp [Nat.succ_sub_succ]

/-! Helper lemmas about the running maximum and the f-score. -/

theorem updMax_ge_left (m f : Rat) : m ≤ updMax m f := by
  unfold updMax; split <;> [exact le_of_lt (by assumption); exact le_refl m]

theorem updMax_ge_right (m f : Rat) : f ≤ updMax m f := by
  unfold updMax; split
  · exact le_refl f
  · exact le_of_not_lt (by assumption)

theorem updMax_cases (m f : Rat) : updMax m f = m ∨ updMax m f = f := by
  unfold updMax; split <;> simp

theorem foldl_updMax_ge_init : ∀ (l : List Rat) (m : Rat), m ≤ l.foldl updMax m := by
  intro l
  induction l with
  | nil => intro m; exact le_refl m
  | cons x l ih =>
    intro m
    exact le_trans (updMax_ge_left m x) (ih (updMax m x))

theorem foldl_updMax_ge_mem :
    ∀ (l : List Rat) (m : Rat) (x : Rat), x ∈ l → x ≤ l.foldl updMax m := by
  intro l
  induction l with
  | nil => intro m x hx; simp at hx
  | cons y l ih =>
    intro m x hx
    rcases List.mem_cons.mp hx with rfl | hx
    · exact le_trans (updMax_ge_right m x) (foldl_updMax_ge_init l (updMax m x))
    · exact ih (updMax m y) x hx

theorem foldl_updMax_cases :
    ∀ (l : List Rat) (m : Rat), l.foldl updMax m = m ∨ l.foldl updMax m ∈ l := by
  intro l
  induction l with
  | nil => intro m; simp
  | cons y l ih =>
    intro m
    rcases ih (updMax m y) with h | h
    · rcases updMax_cases m y with h2 | h2
      · left; rw [List.foldl_cons, h, h2]
      · right; rw [List.foldl_cons, h, h2]; exact List.mem_cons_self y l
    · right; rw [List.foldl_cons]; exact List.mem_cons_of_mem y h

theorem fscoreOf_nonneg (a b c : Nat) : 0 ≤ fscoreOf a b c := by
  unfold fscoreOf
  split
  · exact le_refl 0
  · positivity

/-! Lemmas about the candidate read and the candidate loop. -/

theorem parse_read_indep (E : Extern T ES) (d ig : Bool) (p q : parse_type T)
    (s : CStream) :
    (parse_type.read E p d ig s).1 = (parse_type.read E q d ig s).1 ∧
    (parse_type.read E p d ig s).2.2 = (parse_type.read E q d ig s).2.2 ∧
    ((parse_type.read E p d ig s).1 = true → ∀ ge : ES,
      scoreParse E ge (parse_type.read E p d ig s).2.1 =
        scoreParse E ge (parse_type.read E q d ig s).2.1) := by
  unfold parse_type.read
  rcases hf : scanFloat s with ⟨o, s1⟩
  rcases o with _ | lp
  · dsimp only
    exact ⟨rfl, rfl, fun h => absurd h (by simp)⟩
  · dsimp only
    cases ig
    · rw [if_neg (by simp), if_neg (by simp)]
      rcases hg : fgets 4000 s1 with _ | ⟨buf, s2⟩
      · exact ⟨rfl, rfl, fun h => by simp at h⟩
      · dsimp only
        refine ⟨rfl, rfl, fun _ ge => ?_⟩
        simp [scoreParse]
    · rw [if_pos rfl, if_pos rfl]
      refine ⟨rfl, rfl, fun _ ge => ?_⟩
      simp [scoreParse]

theorem parsesLoop_length (E : Extern T ES) (ge : ES) (d ig : Bool) :
    ∀ (l : List (parse_type T)) (m : Rat) (s : CStream),
      (parsesLoop E ge d ig l m s).2.1.length = l.length := by
  intro l
  induction l with
  | nil => intro m s; rfl
  | cons p rest ih =>
    intro m s
    unfold parsesLoop
    rcases hr : parse_type.read E p d ig s with ⟨b, p1, s1⟩
    rcases b with _ | _
    · simp
    · simp [ih]

theorem parsesLoop_ok (E : Extern T ES) (ge : ES) (d ig : Bool) :
    ∀ (l : List (parse_type T)) (m : Rat) (s : CStream),
      (parsesLoop E ge d ig l m s).1 = true →
      (parsesLoop E ge d ig l m s).2.2.1
          = ((parsesLoop E ge d ig l m s).2.1.map parse_type.f_score).foldl updMax m ∧
      (∀ p ∈ (parsesLoop E ge d ig l m s).2.1,
        p.f_score = fscoreOf (E.edgesCount ge) p.nedges p.ncorrect) := by
  intro l
  induction l with
  | nil => intro m s _; simp [parsesLoop]
  | cons p rest ih =>
    intro m s hok
    unfold parsesLoop at hok ⊢
    rcases hr : parse_type.read E p d ig s with ⟨b, p1, s1⟩
    rcases b with _ | _
    · rw [hr] at hok; exact absurd hok (by simp)
    · rw [hr] at hok
      simp only at hok
      have h2 := ih (updMax m (scoreParse E ge p1).f_score) s1 hok
      refine ⟨?_, ?_⟩
      · simp only [List.map_cons, List.foldl_cons]
        exact h2.1
      · intro x hx
        rcases List.mem_cons.mp hx with rfl | hx
        · simp [scoreParse]
        · exact h2.2 x hx

theorem parsesLoop_indep (E : Extern T ES) (ge : ES) (d ig : Bool) :
    ∀ (l₁ l₂ : List (parse_type T)) (m₁ m₂ : Rat) (s : CStream),
      l₁.length = l₂.length →
      (parsesLoop E ge d ig l₁ m₁ s).1 = (parsesLoop E ge d ig l₂ m₂ s).1 ∧
      (parsesLoop E ge d ig l₁ m₁ s).2.2.2 = (parsesLoop E ge d ig l₂ m₂ s).2.2.2 ∧
      ((parsesLoop E ge d ig l₁ m₁ s).1 = true →
        (parsesLoop E ge d ig l₁ m₁ s).2.1 = (parsesLoop E ge d ig l₂ m₂ s).2.1) := by
  intro l₁
  induction l₁ with
  | nil =>
    intro l₂ m₁ m₂ s hlen
    rcases l₂ with _ | ⟨q, l₂'⟩
    · exact ⟨rfl, rfl, fun _ => rfl⟩
    · simp at hlen
  | cons p l₁' ih =>
    intro l₂ m₁ m₂ s hlen
    rcases l₂ with _ | ⟨q, l₂'⟩
    · simp at hlen
    · have hlen' : l₁'.length = l₂'.length := by simpa using hlen
      obtain ⟨hb, hs, hsc⟩ := parse_read_indep E d ig p q s
      unfold parsesLoop
      rcases hr1 : parse_type.read E p d ig s with ⟨b1, p1, s1⟩
      rcases hr2 : parse_type.read E q d ig s with ⟨b2, p2, s2⟩
      rw [hr1, hr2] at hb hs hsc
      simp only at hb hs hsc
      subst hb hs
      rcases b1 with _ | _
      · exact ⟨rfl, rfl, fun h => absurd h (by simp)⟩
      · have hpq := hsc rfl ge
        dsimp only
        rw [hpq]
        obtain ⟨ib, is, ip⟩ := ih l₂' (updMax m₁ (scoreParse E ge p2).f_score)
          (updMax m₂ (scoreParse E ge p2).f_score) s1 hlen'
        exact ⟨ib, is, fun h => by rw [ip h]⟩

/-! Lemmas about the sentence-level read. -/

theorem resizeParses_length (ps : List (parse_type T)) (n : Nat) :
    (resizeParses ps n).length = n := by
  simp only [resizeParses, List.length_append, List.length_take, List.length_replicate]
  omega

theorem resizeSentences_length (l : List (sentence_type T)) (n : Nat) :
    (resizeSentences l n).length = n := by
  simp only [resizeSentences, List.length_append, List.length_take, List.length_replicate]
  omega

theorem sentence_read_ok (E : Extern T ES) (snt : sentence_type T) (d ig : Bool)
    (s : CStream) (out : sentence_type T) (s' : CStream)
    (h : sentence_type.read E snt d ig s = Except.ok (true, out, s')) :
    out.max_fscore = (out.parses.map parse_type.f_score).foldl updMax snt.max_fscore ∧
    (∀ p ∈ out.parses, p.f_score = fscoreOf out.gold_nedges p.nedges p.ncorrect) := by
  unfold sentence_type.read at h
  rcases hsc : scanUInt s with ⟨o, s1⟩
  rw [hsc] at h
  rcases o with _ | n
  · simp at h
  · cases ig
    · dsimp only at h
      rw [if_neg (by simp)] at h
      rcases hg : fgets 4000 s1 with _ | ⟨buf, s2⟩
      · rw [hg] at h; simp at h
      · rw [hg] at h
        dsimp only at h
        unfold sentence_type.readBody at h
        rcases hrt : E.readtree buf d with _ | g
        · rw [hrt] at h; simp at h
        · rw [hrt] at h
          dsimp only at h
          rw [Except.ok.injEq, Prod.mk.injEq] at h
          obtain ⟨hb, h2⟩ := h
          rw [Prod.mk.injEq] at h2
          obtain ⟨hout, hs2⟩ := h2
          have hma := parsesLoop_ok E (E.goldEdges g) d false
            (resizeParses snt.parses n) snt.max_fscore s2 hb
          subst hout
          exact ⟨hma.1, hma.2⟩
    · dsimp only at h
      rw [if_pos rfl] at h
      unfold sentence_type.readBody at h
      simp at h

theorem sentence_read_indep (E : Extern T ES) (d ig : Bool)
    (a b : sentence_type T) (s : CStream) :
    sentReadFlag (sentence_type.read E a d ig s) =
      sentReadFlag (sentence_type.read E b d ig s) ∧
    sentReadRest (sentence_type.read E a d ig s) =
      sentReadRest (sentence_type.read E b d ig s) ∧
    (sentReadFlag (sentence_type.read E a d ig s) = some true →
      coreEq (sentReadRec (sentence_type.read E a d ig s))
        (sentReadRec (sentence_type.read E b d ig s))) := by
  unfold sentence_type.read
  rcases hsc : scanUInt s with ⟨o, s1⟩
  rcases o with _ | n
  · exact ⟨by simp [sentReadFlag], by simp [sentReadRest], fun h => by simp [sentReadFlag] at h⟩
  · cases ig
    · dsimp only
      simp only [Bool.false_eq_true, if_false]
      rcases hg : fgets 4000 s1 with _ | ⟨buf, s2⟩
      · exact ⟨by simp [sentReadFlag], by simp [sentReadRest], fun h => by simp [sentReadFlag] at h⟩
      · dsimp only
        unfold sentence_type.readBody
        rcases hrt : E.readtree buf d with _ | g
        · exact ⟨by simp [sentReadFlag], by simp [sentReadRest], fun h => by simp [sentReadFlag] at h⟩
        · dsimp only
          have hlen : (resizeParses a.parses n).length = (resizeParses b.parses n).length := by
            rw [resizeParses_length, resizeParses_length]
          obtain ⟨ib, is, ip⟩ := parsesLoop_indep E (E.goldEdges g) d false
            (resizeParses a.parses n) (resizeParses b.parses n)
            a.max_fscore b.max_fscore s2 hlen
          refine ⟨by simp [sentReadFlag, ib], by simp [sentReadRest, is], fun h => ?_⟩
          simp only [sentReadFlag, Option.some.injEq] at h
          simp [sentReadRec, coreEq, ip h]
    · dsimp only
      simp only [if_pos rfl]
      unfold sentence_type.readBody
      exact ⟨by simp [sentReadFlag], by simp [sentReadRest], fun h => by simp [sentReadFlag] at h⟩

/-! Lemmas about the corpus-level loops. -/

theorem corpusLoop_length (E : Extern T ES) (d ig : Bool) :
    ∀ (l : List (sentence_type T)) (s : CStream) (b : Bool)
      (l' : List (sentence_type T)) (s' : CStream),
      corpusLoop E d ig l s = Except.ok (b, l', s') → l'.length = l.length := by
  intro l
  induction l with
  | nil =>
    intro s b l' s' h
    unfold corpusLoop at h
    rw [Except.ok.injEq, Prod.mk.injEq] at h
    obtain ⟨-, h2⟩ := h
    rw [Prod.mk.injEq] at h2
    rw [← h2.1]
  | cons snt rest ih =>
    intro s b l' s' h
    unfold corpusLoop at h
    cases ha : sentence_type.read E snt d ig s with
    | error e => rw [ha] at h; simp at h
    | ok trip =>
      rcases trip with ⟨flag, snt1, s1⟩
      rw [ha] at h
      cases flag
      · dsimp only at h
        rw [Except.ok.injEq, Prod.mk.injEq] at h
        obtain ⟨-, h2⟩ := h
        rw [Prod.mk.injEq] at h2
        rw [← h2.1]
        simp
      · dsimp only at h
        cases hc : corpusLoop E d ig rest s1 with
        | error e => rw [hc] at h; simp at h
        | ok trip2 =>
          rcases trip2 with ⟨b2, rest1, s2⟩
          rw [hc] at h
          dsimp only at h
          rw [Except.ok.injEq, Prod.mk.injEq] at h
          obtain ⟨-, h2⟩ := h
          rw [Prod.mk.injEq] at h2
          rw [← h2.1]
          simp [ih s1 b2 rest1 s2 hc]

theorem loops_agree (E : Extern T ES) (d ig : Bool) :
    ∀ (r : Nat) (snt : sentence_type T) (acc : List (sentence_type T)) (s : CStream)
      (bm : Bool) (accm : List (sentence_type T)) (sm : CStream),
      mapLoop E accVisitor d ig r snt acc s = Except.ok (bm, accm, sm) →
      ∃ lc, corpusLoop E d ig (List.replicate r (sentence_type.mkDefault T)) s =
              Except.ok (bm, lc, sm) ∧
        (bm = true → ∃ L, accm = acc ++ L ∧ List.Forall₂ coreEq L lc) := by
  intro r
  induction r with
  | zero =>
    intro snt acc s bm accm sm h
    unfold mapLoop at h
    rw [Except.ok.injEq, Prod.mk.injEq] at h
    obtain ⟨hb, h2⟩ := h
    rw [Prod.mk.injEq] at h2
    refine ⟨[], ?_, fun _ => ⟨[], by simp [h2.1], List.Forall₂.nil⟩⟩
    simp [corpusLoop, hb, h2.2]
  | succ r ih =>
    intro snt acc s bm accm sm h
    obtain ⟨hfl, hrs, hcore⟩ := sentence_read_indep E d ig snt (sentence_type.mkDefault T) s
    unfold mapLoop at h
    cases ha : sentence_type.read E snt d ig s with
    | error e => rw [ha] at h; simp at h
    | ok trip =>
      rcases trip with ⟨flag, snt1, s1⟩
      rw [ha] at h
      cases hb : sentence_type.read E (sentence_type.mkDefault T) d ig s with
      | error e =>
        rw [ha, hb] at hfl
        simp [sentReadFlag] at hfl
      | ok trip2 =>
        rcases trip2 with ⟨flag2, snt2, s2⟩
        rw [ha, hb] at hfl hrs hcore
        simp only [sentReadFlag, sentReadRest, Option.some.injEq] at hfl hrs
        subst hfl hrs
        rw [List.replicate_succ]
        cases flag
        · dsimp only at h
          rw [Except.ok.injEq, Prod.mk.injEq] at h
          obtain ⟨hbm, h2⟩ := h
          rw [Prod.mk.injEq] at h2
          refine ⟨snt2 :: List.replicate r (sentence_type.mkDefault T), ?_, fun htr => ?_⟩
          · unfold corpusLoop
            rw [hb]
            dsimp only
            rw [← hbm, h2.2]
          · rw [← hbm] at htr; cases htr
        · dsimp only at h
          obtain ⟨lc', hcl, hrest⟩ := ih snt1 (acc ++ [snt1]) s1 bm accm sm h
          refine ⟨snt2 :: lc', ?_, fun htr => ?_⟩
          · unfold corpusLoop
            rw [hb]
            dsimp only
            rw [hcl]
          · obtain ⟨L', haccm, hfa⟩ := hrest htr
            refine ⟨snt1 :: L', by simp [haccm], List.Forall₂.cons ?_ hfa⟩
            have := hcore (by simp [sentReadFlag])
            simpa [sentReadRec] using this

theorem sentRead_ok_of_flag (r : Except Unit (Bool × sentence_type T × CStream))
    (h : sentReadFlag r = some true) :
    r = Except.ok (true, sentReadRec r, (sentReadRest r).getD []) := by
  cases r with
  | error e => simp [sentReadFlag] at h
  | ok trip =>
    rcases trip with ⟨b, out, t⟩
    simp only [sentReadFlag, Option.some.injEq] at h
    rw [← h]
    simp [sentReadRec, sentReadRest]

theorem length_one_headI (l : List (parse_type T)) (h : l.length = 1) :
    l = [l.headI] := by
  rcases l with _ | ⟨p, rest⟩
  · simp at h
  · rcases rest with _ | ⟨q, rest'⟩
    · rfl
    · simp at h

theorem single_cand_eval (E : Extern T ES) (snt : sentence_type T) (d ig : Bool)
    (s : CStream) (out : sentence_type T) (s' : CStream) (g a b : Nat)
    (h : sentence_type.read E snt d ig s = Except.ok (true, out, s'))
    (hlen : out.parses.length = 1) (hgn : out.gold_nedges = g)
    (hne : out.parses.headI.nedges = a) (hnc : out.parses.headI.ncorrect = b) :
    out.max_fscore = updMax snt.max_fscore (fscoreOf g a b) ∧
    out.parses.map parse_type.f_score = [fscoreOf g a b] := by
  obtain ⟨hmax, hsc⟩ := sentence_read_ok E snt d ig s out s' h
  have hsingle := length_one_headI out.parses hlen
  have hmem : out.parses.headI ∈ out.parses := by
    rw [hsingle]; simp
  have hf : out.parses.headI.f_score = fscoreOf g a b := by
    rw [hsc out.parses.headI hmem, hgn, hne, hnc]
  have hmap : out.parses.map parse_type.f_score = [fscoreOf g a b] := by
    conv_lhs => rw [hsingle]
    simp [hf]
  refine ⟨?_, hmap⟩
  rw [hmax, hmap]
  simp

/-! The claims. -/

/-- C1 (amended): on every read whose header count scans as `n`,
`corpus_type::read` leaves `nsentences() == n` whether it returns true
or false, because the sentences vector is resized to `n` before the
loop; a failed header scan leaves the corpus unchanged (so a fresh
corpus keeps `nsentences() == 0` on a non-numeric first token). -/
theorem C1_thm (E : Extern T ES) (c : corpus_type T) (d ig : Bool) (s : CStream) :
    (∀ (n : Nat) (s1 : CStream) (b : Bool) (c' : corpus_type T) (t : CStream),
        scanUInt s = (some n, s1) →
        corpus_type.read E c d ig s = Except.ok (b, c', t) → c'.nsentences = n) ∧
    (∀ s1 : CStream, scanUInt s = (none, s1) →
        corpus_type.read E c d ig s = Except.ok (false, c, s1)) := by
  constructor
  · intro n s1 b c' t hscan hread
    unfold corpus_type.read at hread
    rw [hscan] at hread
    dsimp only at hread
    cases hc : corpusLoop E d ig (resizeSentences c.sentences n) s1 with
    | error e => rw [hc] at hread; simp at hread
    | ok trip =>
      rcases trip with ⟨b0, sents, s2⟩
      rw [hc] at hread
      dsimp only at hread
      rw [Except.ok.injEq, Prod.mk.injEq] at hread
      obtain ⟨-, h2⟩ := hread
      rw [Prod.mk.injEq] at h2
      rw [← h2.1]
      have hl := corpusLoop_length E d ig (resizeSentences c.sentences n) s1 b0 sents s2 hc
      simp [corpus_type.nsentences, hl, resizeSentences_length]
  · intro s1 hscan
    unfold corpus_type.read
    rw [hscan]

/-- Witness for C1: a stream declaring 1 well-formed sentence is read
with `nsentences() == 1`. -/
theorem C1_wit : scanUInt w1corpus = (some 1, "0 (a)\n".toList) ∧ C1c.nsentences = 1 :=
  ⟨by decide,
   (C1_thm E0 { sentences := [] } false false w1corpus).1 1 ("0 (a)\n".toList)
     C1b C1c C1t (by decide) (by decide)⟩

/-- Counterexample for C1: a stream declaring 3 sentences but containing
only 2 leaves `nsentences() == 3` after the failed read, not 2 — the
vector was resized to the declared count up front. -/
theorem C1_cex :
    corpReadFlagLen (corpus_type.read E0 { sentences := [] } false false
        ("3 0 (a)\n0 (b)\n".toList)) = some (false, 3) ∧ (3 : Nat) ≠ 2 :=
  ⟨by decide, by decide⟩

/-- C2 (amended): after a successful read into a record whose
`max_fscore` was 0 beforehand (e.g. freshly constructed), `max_fscore`
is the maximum of the parses' f-scores — an upper bound that is 0 for an
empty parse list and attained by some parse otherwise, in any order. -/
theorem C2_thm (E : Extern T ES) (snt : sentence_type T) (d ig : Bool) (s : CStream)
    (out : sentence_type T) (s' : CStream)
    (h0 : snt.max_fscore = 0)
    (h : sentence_type.read E snt d ig s = Except.ok (true, out, s')) :
    (∀ f ∈ out.parses.map parse_type.f_score, f ≤ out.max_fscore) ∧
    (out.parses = [] → out.max_fscore = 0) ∧
    (out.parses ≠ [] → out.max_fscore ∈ out.parses.map parse_type.f_score) := by
  obtain ⟨hmax, hsc⟩ := sentence_read_ok E snt d ig s out s' h
  rw [h0] at hmax
  have hnn : ∀ f ∈ out.parses.map parse_type.f_score, 0 ≤ f := by
    intro f hf
    rcases List.mem_map.mp hf with ⟨p, hp, rfl⟩
    rw [hsc p hp]
    exact fscoreOf_nonneg _ _ _
  refine ⟨?_, ?_, ?_⟩
  · intro f hf
    rw [hmax]
    exact foldl_updMax_ge_mem _ 0 f hf
  · intro he
    rw [hmax, he]
    rfl
  · intro hne
    have hlne : out.parses.map parse_type.f_score ≠ [] := by
      intro hmap
      exact hne (by simpa using hmap)
    rcases foldl_updMax_cases (out.parses.map parse_type.f_score) 0 with hcase | hcase
    · rw [hmax, hcase]
      rcases hl : out.parses.map parse_type.f_score with _ | ⟨x, xs⟩
      · exact absurd hl hlne
      · have hxle : x ≤ 0 := by
          have hm := foldl_updMax_ge_mem (out.parses.map parse_type.f_score) 0 x
            (by rw [hl]; simp)
          rw [hcase] at hm
          exact hm
        have hxge : 0 ≤ x := hnn x (by rw [hl]; simp)
        have hx0 : x = 0 := le_antisymm hxle hxge
        rw [← hx0]
        simp
    · rw [hmax]
      exact hcase

/-- Witness for C2: reading one 0.9-scoring candidate into a fresh
record makes `max_fscore` the maximum of the stored f-scores. -/
theorem C2_wit :
    (sentence_type.mkDefault (List Char)).max_fscore = 0 ∧
    ((∀ f ∈ C2out1.parses.map parse_type.f_score, f ≤ C2out1.max_fscore) ∧
     (C2out1.parses = [] → C2out1.max_fscore = 0) ∧
     (C2out1.parses ≠ [] → C2out1.max_fscore ∈ C2out1.parses.map parse_type.f_score)) :=
  ⟨rfl,
   C2_thm E2 (sentence_type.mkDefault (List Char)) false false w1sent C2out1
     ((sentReadRest C2run1).getD []) rfl (sentRead_ok_of_flag C2run1 (by decide))⟩

/-- Counterexample for C2: `read` never resets `max_fscore`, so a second
read on the same record (parse f-scores `[0.2]`) reports the stale
maximum 0.9 of the previous read instead of 0.2. -/
theorem C2_cex :
    sentReadFlag C2run2 = some true ∧
    C2out2.parses.map parse_type.f_score = [1/5] ∧
    C2out2.max_fscore = 9/10 ∧ ((9 : Rat)/10 ≠ 1/5) := by
  have h1 := single_cand_eval E2 (sentence_type.mkDefault (List Char)) false false
    w1sent C2out1 ((sentReadRest C2run1).getD []) 10 10 9
    (sentRead_ok_of_flag C2run1 (by decide)) (by decide) (by decide) (by decide) (by decide)
  have h2 := single_cand_eval E2 C2out1 false false
    w2sent C2out2 ((sentReadRest C2run2).getD []) 10 10 2
    (sentRead_ok_of_flag C2run2 (by decide)) (by decide) (by decide) (by decide) (by decide)
  have hm1 : C2out1.max_fscore = 9/10 := by
    rw [h1.1]
    norm_num [sentence_type.mkDefault, updMax, fscoreOf]
  have hm2 : C2out2.max_fscore = 9/10 := by
    rw [h2.1, hm1]
    norm_num [updMax, fscoreOf]
  have hf2 : C2out2.parses.map parse_type.f_score = [1/5] := by
    rw [h2.2]
    norm_num [fscoreOf]
  exact ⟨by decide, hf2, hm2, by norm_num⟩

/-- C6: every candidate stored by a successful sentence read carries
`f_score == 2*common/(candidate_edges+gold_edges)` (0 when the
denominator is 0), and the concrete instance gold 10, candidate 8,
common 6 gives 2*6/(8+10) == 2/3 == 0.6667 within 1e-4. -/
theorem C6_thm (E : Extern T ES) (snt : sentence_type T) (d ig : Bool) (s : CStream)
    (out : sentence_type T) (s' : CStream)
    (h : sentence_type.read E snt d ig s = Except.ok (true, out, s')) :
    (∀ p ∈ out.parses, p.f_score = fscoreOf out.gold_nedges p.nedges p.ncorrect) ∧
    fscoreOf 10 8 6 = 2/3 ∧ |(2 : Rat)/3 - 6667/10000| ≤ 1/10000 := by
  refine ⟨(sentence_read_ok E snt d ig s out s' h).2, by norm_num [fscoreOf], ?_⟩
  rw [show (2 : Rat)/3 - 6667/10000 = -(1/30000) by norm_num]
  rw [abs_neg, abs_of_nonneg (by norm_num)]
  norm_num

/-- Witness for C6: the sample run stores candidate edge count 10,
common 9, f-score 9/10, matching the formula. -/
theorem C6_wit :
    (∀ p ∈ C6out.parses, p.f_score = fscoreOf C6out.gold_nedges p.nedges p.ncorrect) ∧
    fscoreOf 10 8 6 = 2/3 ∧ |(2 : Rat)/3 - 6667/10000| ≤ 1/10000 :=
  C6_thm E2 (sentence_type.mkDefault (List Char)) false false w1sent C6out C6rest
    (sentRead_ok_of_flag C6run (by decide))

/-- C7: with `ignore_trees = true` the gold pointer is never set, so
whenever the candidate-count scan succeeds, `sentence_type::read` trips
`assert(gold != NULL)` (dp-data.h line 223) instead of returning true. -/
theorem C7_thm (E : Extern T ES) (snt : sentence_type T) (d : Bool) (s : CStream)
    (n : Nat) (s1 : CStream) (h : scanUInt s = (some n, s1)) :
    sentence_type.read E snt d true s = Except.error () := by
  unfold sentence_type.read
  rw [h]
  dsimp only
  rw [if_pos rfl]
  rfl

/-- Witness for C7: a well-formed sentence stream read with
`ignore_trees = true` crashes on the assertion. -/
theorem C7_wit :
    scanUInt ("1 (a)\n".toList) = (some 1, "(a)\n".toList) ∧
    sentence_type.read E0 (sentence_type.mkDefault (List Char)) false true
        ("1 (a)\n".toList) = Except.error () :=
  ⟨by decide,
   C7_thm E0 (sentence_type.mkDefault (List Char)) false ("1 (a)\n".toList) 1
     ("(a)\n".toList) (by decide)⟩

/-- One unfolding step of `mapLoop` on a positive count. -/
theorem mapLoop_succ (E : Extern T ES) (proc : sentence_type T → σ → σ) (d ig : Bool)
    (r : Nat) (snt : sentence_type T) (acc : σ) (s : CStream) :
    mapLoop E proc d ig (r + 1) snt acc s =
      match sentence_type.read E snt d ig s with
      | Except.error e => Except.error e
      | Except.ok (false, _, s1) => Except.ok (false, acc, s1)
      | Except.ok (true, snt1, s1) => mapLoop E proc d ig r snt1 (proc snt1 acc) s1 := rfl

/-- `mapLoop` on count 0. -/
theorem mapLoop_zero (E : Extern T ES) (proc : sentence_type T → σ → σ) (d ig : Bool)
    (snt : sentence_type T) (acc : σ) (s : CStream) :
    mapLoop E proc d ig 0 snt acc s = Except.ok (true, acc, s) := rfl

/-- One unfolding step of `corpusLoop` on a nonempty slot list. -/
theorem corpusLoop_cons (E : Extern T ES) (d ig : Bool) (snt : sentence_type T)
    (rest : List (sentence_type T)) (s : CStream) :
    corpusLoop E d ig (snt :: rest) s =
      match sentence_type.read E snt d ig s with
      | Except.error e => Except.error e
      | Except.ok (false, snt1, s1) => Except.ok (false, snt1 :: rest, s1)
      | Except.ok (true, snt1, s1) =>
        match corpusLoop E d ig rest s1 with
        | Except.error e => Except.error e
        | Except.ok (okr, rest1, s2) => Except.ok (okr, snt1 :: rest1, s2) := rfl

/-- C3 (amended): a successful visitor-mode run (`map_sentences` with an
accumulating visitor returning its positive declared count) matches a
`read` of an identical stream into a fresh corpus in everything except
the per-sentence running maximum: same success, same final stream
position, same count, and visited record i agrees with corpus record i
on the gold tree, the gold edge count and the scored parses (hence all
per-parse f-scores). -/
theorem C3_thm (E : Extern T ES) (d : Bool) (s : CStream) (n : Nat)
    (acc' : List (sentence_type T)) (t : CStream)
    (hmap : corpus_type.map_sentences E accVisitor d false [] s = Except.ok (n, acc', t))
    (hn : 0 < n) :
    ∃ c', corpus_type.read E { sentences := [] } d false s = Except.ok (true, c', t) ∧
      c'.nsentences = n ∧ acc'.length = n ∧ List.Forall₂ coreEq acc' c'.sentences := by
  unfold corpus_type.map_sentences at hmap
  rcases hsc : scanUInt s with ⟨o, s1⟩
  rw [hsc] at hmap
  rcases o with _ | m
  · dsimp only at hmap
    rw [Except.ok.injEq, Prod.mk.injEq] at hmap
    omega
  · dsimp only at hmap
    cases hml : mapLoop E accVisitor d false m (sentence_type.mkDefault T) [] s1 with
    | error e => rw [hml] at hmap; simp at hmap
    | ok trip =>
      rcases trip with ⟨ok, acc1, s2⟩
      rw [hml] at hmap
      dsimp only at hmap
      rw [Except.ok.injEq, Prod.mk.injEq] at hmap
      obtain ⟨hn', h2⟩ := hmap
      rw [Prod.mk.injEq] at h2
      cases ok
      · rw [if_neg (by simp)] at hn'
        omega
      · rw [if_pos rfl] at hn'
        obtain ⟨lc, hcl, hLrel⟩ :=
          loops_agree E d false m (sentence_type.mkDefault T) [] s1 true acc1 s2 hml
        obtain ⟨L, haccm, hfa⟩ := hLrel rfl
        have hreseq : resizeSentences ([] : List (sentence_type T)) m =
            List.replicate m (sentence_type.mkDefault T) := by
          simp [resizeSentences]
        have hlc := corpusLoop_length E d false
          (List.replicate m (sentence_type.mkDefault T)) s1 true lc s2 hcl
        refine ⟨{ sentences := lc }, ?_, ?_, ?_, ?_⟩
        · unfold corpus_type.read
          rw [hsc]
          dsimp only
          rw [hreseq, hcl]
          rw [h2.2]
        · simp only [corpus_type.nsentences]
          rw [hlc, List.length_replicate, hn']
        · rw [← h2.1, haccm]
          have := List.Forall₂.length_eq hfa
          simp only [List.nil_append]
          rw [this, hlc, List.length_replicate, hn']
        · rw [← h2.1, haccm]
          simpa using hfa

/-- Witness for C3: a 2-sentence stream processed in visitor mode agrees
with the corpus-mode read. -/
theorem C3_wit :
    ∃ c', corpus_type.read E0 { sentences := [] } false false w2corpus =
        Except.ok (true, c', C3wT) ∧
      c'.nsentences = C3wN ∧ C3wAcc.length = C3wN ∧
      List.Forall₂ coreEq C3wAcc c'.sentences :=
  C3_thm E0 false w2corpus C3wN C3wAcc C3wT (by decide) (by decide)

/-- Counterexample for C3: over `cxcorpus` the visitor receives a second
record whose `max_fscore` is the stale 0.9 of the reused local record,
while `read` stores 0.2 for the same second sentence — the per-sentence
maxima differ between the two modes. -/
theorem C3_cex :
    corpus_type.map_sentences E2 accVisitor false false [] cxcorpus =
      Except.ok (2, [X1out, X2out], X2t) ∧
    corpus_type.read E2 { sentences := [] } false false cxcorpus =
      Except.ok (true, { sentences := [X1out, Y2out] }, Y2t) ∧
    X2out.max_fscore = 9/10 ∧ Y2out.max_fscore = 1/5 ∧ ((9 : Rat)/10 ≠ 1/5) := by
  have e1 : sentence_type.read E2 (sentence_type.mkDefault (List Char)) false false cxtail
      = Except.ok (true, X1out, X1t) := sentRead_ok_of_flag X1run (by decide)
  have e2 : sentence_type.read E2 X1out false false X1t
      = Except.ok (true, X2out, X2t) := sentRead_ok_of_flag X2run (by decide)
  have ey : sentence_type.read E2 (sentence_type.mkDefault (List Char)) false false X1t
      = Except.ok (true, Y2out, Y2t) := sentRead_ok_of_flag Y2run (by decide)
  have h1 := single_cand_eval E2 (sentence_type.mkDefault (List Char)) false false
    cxtail X1out X1t 10 10 9 e1 (by decide) (by decide) (by decide) (by decide)
  have h2 := single_cand_eval E2 X1out false false
    X1t X2out X2t 10 10 2 e2 (by decide) (by decide) (by decide) (by decide)
  have hy := single_cand_eval E2 (sentence_type.mkDefault (List Char)) false false
    X1t Y2out Y2t 10 10 2 ey (by decide) (by decide) (by decide) (by decide)
  have hm1 : X1out.max_fscore = 9/10 := by
    rw [h1.1]
    norm_num [sentence_type.mkDefault, updMax, fscoreOf]
  have hm2 : X2out.max_fscore = 9/10 := by
    rw [h2.1, hm1]
    norm_num [updMax, fscoreOf]
  have hmy : Y2out.max_fscore = 1/5 := by
    rw [hy.1]
    norm_num [sentence_type.mkDefault, updMax, fscoreOf]
  refine ⟨?_, ?_, hm2, hmy, by norm_num⟩
  · unfold corpus_type.map_sentences
    rw [show scanUInt cxcorpus = (some 2, cxtail) from by decide]
    dsimp only
    rw [show (2 : Nat) = 1 + 1 from rfl, mapLoop_succ, e1]
    dsimp only
    rw [show (1 : Nat) = 0 + 1 from rfl, mapLoop_succ]
    rw [show accVisitor X1out [] = [X1out] from rfl, e2]
    dsimp only
    rw [mapLoop_zero]
    rw [show accVisitor X2out [X1out] = [X1out, X2out] from rfl]
    rfl
  · unfold corpus_type.read
    rw [show scanUInt cxcorpus = (some 2, cxtail) from by decide]
    dsimp only
    rw [show resizeSentences ([] : List (sentence_type (List Char))) 2 =
          [sentence_type.mkDefault (List Char), sentence_type.mkDefault (List Char)] from rfl]
    rw [corpusLoop_cons, e1]
    dsimp only
    rw [corpusLoop_cons, ey]
    dsimp only
    rw [show corpusLoop E2 false false ([] : List (sentence_type (List Char))) Y2t =
          Except.ok (true, [], Y2t) from rfl]

/-- C4 (amended): within a sentence the reader consumes the candidate
count FIRST and the gold tree line SECOND: on a stream laid out as
digit-run, newline, gold line, newline, remainder, `sentence_type::read`
scans the digits as the candidate count, reads the following line as the
gold tree, and hands only the remainder to the candidate loop. -/
theorem C4_thm (E : Extern T ES) (snt : sentence_type T) (d : Bool)
    (rep line : List Char) (rest : CStream)
    (hrep : rep ≠ []) (hd : ∀ c ∈ rep, c.isDigit = true)
    (hnl : '\n' ∉ line) (hne : line ≠ [])
    (hhd : isWS line.headI = false)
    (hlen : line.length ≤ 3998) :
    sentence_type.read E snt d false (rep ++ '\n' :: (line ++ '\n' :: rest)) =
      sentence_type.readBody E { snt with gold := none } d false (natOfDigits rep)
        (E.readtree (line ++ ['\n']) d) rest := by
  have hscan := scanUInt_lit rep (line ++ '\n' :: rest) hrep hd
  have hskip : skipWS (line ++ '\n' :: rest) = line ++ '\n' :: rest := by
    rcases line with _ | ⟨c, l⟩
    · exact absurd rfl hne
    · simp only [List.headI] at hhd
      simp [skipWS, List.dropWhile_cons, hhd]
  rw [hskip] at hscan
  have hget := fgets_line line rest hnl hlen
  unfold sentence_type.read
  rw [hscan]
  dsimp only
  rw [if_neg (by simp), hget]

/-- Witness for C4: the count-first layout `1`, newline, `(g)`, newline,
candidate text is consumed with count 1 and gold line `(g)`. -/
theorem C4_wit :
    sentence_type.read E0 (sentence_type.mkDefault (List Char)) false false
        (['1'] ++ '\n' :: ("(g)".toList ++ '\n' :: "1 a\n".toList)) =
      sentence_type.readBody E0
        { sentence_type.mkDefault (List Char) with gold := none } false false
        (natOfDigits ['1']) (E0.readtree ("(g)".toList ++ ['\n']) false) ("1 a\n".toList) :=
  C4_thm E0 (sentence_type.mkDefault (List Char)) false ['1'] ("(g)".toList)
    ("1 a\n".toList) (by decide) (by decide) (by decide) (by decide) (by decide) (by decide)

/-- Counterexample for C4: a stream laid out gold-line-first (as the
claim describes) makes the read fail — the scanner meets `(` where it
expects the candidate count — while the count-first layout of the same
sentence succeeds with that line as the gold tree. -/
theorem C4_cex :
    sentReadFlag (sentence_type.read E0 (sentence_type.mkDefault (List Char)) false false
        ("(S a)\n1\n1 b\n".toList)) = some false ∧
    sentReadFlag (sentence_type.read E0 (sentence_type.mkDefault (List Char)) false false
        ("1 (S a)\n1 b\n".toList)) = some true ∧
    (sentReadRec (sentence_type.read E0 (sentence_type.mkDefault (List Char)) false false
        ("1 (S a)\n1 b\n".toList))).gold = some ("(S a)\n".toList) :=
  ⟨by decide, by decide, by decide⟩

/-- Shape of `fscanf(" %lf ")` on a `1`-then-blank token: some value is
scanned and the stream advances past the blank. -/
theorem scanFloat_one_shape (t : CStream) :
    (scanFloat ('1' :: ' ' :: t)).2 = skipWS t ∧
    (scanFloat ('1' :: ' ' :: t)).1.isSome = true := ⟨rfl, rfl⟩

/-- C5: the reference reader silently truncates long tree lines — on a
candidate whose tree line is 5000 characters, `parse_type::read` returns
true, hands `readtree` only the first 3999 characters (the 4000-byte
`fgets` buffer), and leaves the remaining 1001 characters of the same
line unconsumed in the stream, rather than failing. -/
theorem C5_thm (E : Extern T ES) (rest : CStream) :
    (parse_type.read E (parse_type.mkDefault T) false false
        ('1' :: ' ' :: (List.replicate 5000 'a' ++ '\n' :: rest))).1 = true ∧
    (parse_type.read E (parse_type.mkDefault T) false false
        ('1' :: ' ' :: (List.replicate 5000 'a' ++ '\n' :: rest))).2.1.parse
      = E.readtree (List.replicate 3999 'a') false ∧
    (parse_type.read E (parse_type.mkDefault T) false false
        ('1' :: ' ' :: (List.replicate 5000 'a' ++ '\n' :: rest))).2.2
      = List.replicate 1001 'a' ++ '\n' :: rest := by
  have hws : isWS 'a' = false := rfl
  have hskip : skipWS (List.replicate 5000 'a' ++ '\n' :: rest) =
      List.replicate 5000 'a' ++ '\n' :: rest := by
    unfold skipWS
    rw [show (5000 : Nat) = 4999 + 1 from rfl, List.replicate_succ, List.cons_append,
      List.dropWhile_cons, hws]
    rw [if_neg (by simp)]
  have hshape := scanFloat_one_shape (List.replicate 5000 'a' ++ '\n' :: rest)
  rw [hskip] at hshape
  have hne : (List.replicate 5000 'a' ++ '\n' :: rest).isEmpty = false := by
    rw [show (5000 : Nat) = 4999 + 1 from rfl, List.replicate_succ]
    rfl
  have hget : fgets 4000 (List.replicate 5000 'a' ++ '\n' :: rest) =
      some (List.replicate 3999 'a', List.replicate 1001 'a' ++ '\n' :: rest) := by
    rw [fgets, hne]
    rw [if_neg (by simp)]
    rw [show (4000 : Nat) - 1 = 3999 from rfl]
    rw [fgetsAux_repl 'a' (by decide) 3999 5000 ('\n' :: rest) (by norm_num)]
  unfold parse_type.read
  rcases hsf : scanFloat ('1' :: ' ' :: (List.replicate 5000 'a' ++ '\n' :: rest))
    with ⟨o, s1⟩
  rw [hsf] at hshape
  rcases o with _ | lp
  · exact absurd hshape.2 (by simp)
  · dsimp only at hshape ⊢
    rw [if_neg (by simp)]
    rw [hshape.1, hget]
    exact ⟨rfl, rfl, rfl⟩

/-! Lemmas about case-insensitive suffix dispatch. -/

theorem toNat_inj_char (c d : Char) (h : c.toNat = d.toNat) : c = d := by
  have hc := Char.ofNat_toNat c
  rw [← hc, h, Char.ofNat_toNat]

theorem lowNat_dot (c : Char) (h : lowNat c = 46) : c = '.' := by
  unfold lowNat at h
  split at h
  · omega
  · exact toNat_inj_char c '.' (by rw [h]; rfl)

theorem ne_dot_of_lowNat (c : Char) (n : Nat) (h : lowNat c = n) (hn : n ≠ 46) :
    c ≠ '.' := by
  intro hc
  subst hc
  have h46 : n = 46 := by rw [← h]; rfl
  exact hn h46

theorem lastSuffix_of_split (f post rest2 : List Char)
    (hsplit : f.reverse = post ++ '.' :: rest2)
    (hpost : ∀ c ∈ post, c ≠ '.') :
    lastSuffix f = some ('.' :: post.reverse) := by
  unfold lastSuffix
  have htw : f.reverse.takeWhile (fun c => decide (c ≠ '.')) = post := by
    rw [hsplit, takeWhile_app _ _ _ (fun c hc => by simp [hpost c hc])]
    simp [List.takeWhile_cons]
  rw [htw]
  have hlen : post.length ≠ f.length := by
    have hfr : f.length = f.reverse.length := (List.length_reverse f).symm
    rw [hfr, hsplit]
    simp
  rw [if_neg hlen]

theorem lastSuffix_shape (f suf : List Char) (h : lastSuffix f = some suf) :
    ∃ post rest2, suf = '.' :: post.reverse ∧ f.reverse = post ++ '.' :: rest2 ∧
      ∀ c ∈ post, c ≠ '.' := by
  unfold lastSuffix at h
  dsimp only at h
  split at h
  · exact absurd h (by simp)
  · rename_i hlen
    rw [Option.some.injEq] at h
    have hdne : f.reverse.dropWhile (fun c => decide (c ≠ '.')) ≠ [] := by
      intro hemp
      have happ := List.takeWhile_append_dropWhile (fun c => decide (c ≠ '.')) f.reverse
      rw [hemp, List.append_nil] at happ
      have hl2 : (f.reverse.takeWhile (fun c => decide (c ≠ '.'))).length
          = f.reverse.length := by rw [happ]
      rw [List.length_reverse] at hl2
      exact hlen hl2
    have hhead := List.head?_dropWhile_not (fun c => decide (c ≠ '.')) f.reverse
    rcases hdeq : f.reverse.dropWhile (fun c => decide (c ≠ '.')) with _ | ⟨dhd, dtl⟩
    · exact absurd hdeq hdne
    · have hdhd : dhd = '.' := by
        rw [hdeq] at hhead
        simp only [List.head?_cons, decide_eq_false_iff_not, not_not] at hhead
        exact hhead
      refine ⟨f.reverse.takeWhile (fun c => decide (c ≠ '.')), dtl, h.symm, ?_, ?_⟩
      · conv_lhs => rw [← List.takeWhile_append_dropWhile (fun c => decide (c ≠ '.')) f.reverse]
        rw [hdeq, hdhd]
      · intro c hc
        have := List.mem_takeWhile_imp hc
        simpa using this

theorem map_take_split (g : Char → Nat) :
    ∀ (qs : List Nat) (l : List Char) (v : Nat),
      (l.take (qs.length + 1)).map g = qs ++ [v] →
      ∃ pre c r, l = pre ++ c :: r ∧ pre.map g = qs ∧ g c = v := by
  intro qs
  induction qs with
  | nil =>
    intro l v h
    rcases l with _ | ⟨c, r⟩
    · simp at h
    · simp only [List.length_nil, Nat.zero_add, List.take_succ_cons, List.take_zero,
        List.map_cons, List.map_nil, List.nil_append, List.cons.injEq] at h
      exact ⟨[], c, r, rfl, rfl, h.1⟩
  | cons q qs ih =>
    intro l v h
    rcases l with _ | ⟨c, r⟩
    · simp at h
    · simp only [List.length_cons, List.take_succ_cons, List.map_cons,
        List.cons_append, List.cons.injEq] at h
      obtain ⟨pre, c', r', heq, hm, hv⟩ := ih r v h.2
      exact ⟨c :: pre, c', r', by rw [List.cons_append, heq], by simp [h.1, hm], hv⟩

theorem endsCI_iff_suffix (f pat : List Char) (qs : List Nat)
    (hq : ∀ n ∈ qs, n ≠ 46)
    (hrev : pat.reverse.map lowNat = qs ++ [46])
    (hlen : pat.length = qs.length + 1) :
    endsCI f pat ↔ ∃ suf, lastSuffix f = some suf ∧ strcaseEq suf pat := by
  have hpatmap : pat.map lowNat = 46 :: qs.reverse := by
    have h1 : (pat.reverse.map lowNat).reverse = (qs ++ [46]).reverse := by rw [hrev]
    rw [← List.map_reverse, List.reverse_reverse] at h1
    rw [h1]
    simp
  constructor
  · intro h
    unfold endsCI at h
    rw [hrev, hlen] at h
    obtain ⟨pre, c, r, heq, hm, hv⟩ := map_take_split lowNat qs f.reverse 46 h
    have hc : c = '.' := lowNat_dot c hv
    have hpre : ∀ x ∈ pre, x ≠ '.' := by
      intro x hx
      exact ne_dot_of_lowNat x (lowNat x) rfl
        (by
          have : lowNat x ∈ qs := by rw [← hm]; exact List.mem_map_of_mem lowNat hx
          exact hq (lowNat x) this)
    refine ⟨'.' :: pre.reverse, ?_, ?_⟩
    · exact lastSuffix_of_split f pre r (by rw [heq, hc]) hpre
    · unfold strcaseEq
      rw [hpatmap]
      simp only [List.map_cons, List.map_reverse, hm]
      exact congrArg (fun l => 46 :: l) rfl
  · rintro ⟨suf, hls, hsc⟩
    obtain ⟨post, rest2, hsuf, hsplit, hpost⟩ := lastSuffix_shape f suf hls
    subst hsuf
    unfold strcaseEq at hsc
    rw [hpatmap] at hsc
    simp only [List.map_cons, List.map_reverse, List.cons.injEq] at hsc
    have hpostmap : post.map lowNat = qs := by
      have := hsc.2
      have h2 : (post.map lowNat).reverse.reverse = qs.reverse.reverse := by rw [this]
      simpa using h2
    unfold endsCI
    rw [hrev, hlen, hsplit]
    have hpl : post.length = qs.length := by
      rw [← hpostmap]; simp
    rw [List.take_append_eq_append_take, ← hpl]
    rw [show post.length + 1 - post.length = 1 from by omega]
    rw [List.take_of_length_le (by omega), List.take_succ_cons, List.take_zero]
    rw [List.map_append, hpostmap]
    simp [lowNat]

theorem lastSuffix_of_mem_dot (f : List Char) (hdot : '.' ∈ f) :
    ∃ suf, lastSuffix f = some suf := by
  unfold lastSuffix
  dsimp only
  split
  · rename_i hlen
    have hpre := List.takeWhile_prefix (l := f.reverse) (fun c => decide (c ≠ '.'))
    have heq : f.reverse.takeWhile (fun c => decide (c ≠ '.')) = f.reverse :=
      hpre.eq_of_length (by rw [hlen, List.length_reverse])
    have hall := List.takeWhile_eq_self_iff.mp heq
    have hmem : '.' ∈ f.reverse := List.mem_reverse.mpr hdot
    have := hall '.' hmem
    simp at this
  · exact ⟨_, rfl⟩

/-- C9 (amended): for every filename that contains a dot,
`popen_decompress` dispatches by case-insensitive suffix — a name ending
in `.bz2` builds the bzip2 command, one ending in `.gz` the gzip
command, any other the passthrough `cat` command — and a launch failure
is fatal.  (A name with no dot makes `strrchr` return NULL, which is
passed to `strcasecmp`: undefined behavior, not passthrough.) -/
theorem C9_thm (f : List Char) (hdot : '.' ∈ f) :
    (endsCI f (".bz2".toList) →
        corpus_type.popen_command f = some ("bzcat ".toList ++ f)) ∧
    (¬ endsCI f (".bz2".toList) → endsCI f (".gz".toList) →
        corpus_type.popen_command f = some ("gunzip -c ".toList ++ f)) ∧
    (¬ endsCI f (".bz2".toList) → ¬ endsCI f (".gz".toList) →
        corpus_type.popen_command f = some ("cat ".toList ++ f)) ∧
    (∀ (St : Type) (launch : List Char → Option St) (cmd : List Char),
        corpus_type.popen_command f = some cmd → launch cmd = none →
        corpus_type.popen_decompress launch f = some (OpenResult.fatalExit)) := by
  have hbz := endsCI_iff_suffix f (".bz2".toList) [50, 122, 98]
    (by decide) (by decide) (by decide)
  have hgz := endsCI_iff_suffix f (".gz".toList) [122, 103]
    (by decide) (by decide) (by decide)
  obtain ⟨suf, hsuf⟩ := lastSuffix_of_mem_dot f hdot
  refine ⟨?_, ?_, ?_, ?_⟩
  · intro h
    obtain ⟨suf', hls', hsc'⟩ := hbz.mp h
    rw [hsuf] at hls'
    rw [Option.some.injEq] at hls'
    subst hls'
    unfold corpus_type.popen_command
    rw [hsuf]
    dsimp only
    rw [if_pos hsc']
  · intro hnb hg
    obtain ⟨suf', hls', hsc'⟩ := hgz.mp hg
    rw [hsuf] at hls'
    rw [Option.some.injEq] at hls'
    subst hls'
    have hnsc : ¬ strcaseEq suf (".bz2".toList) := by
      intro hx
      exact hnb (hbz.mpr ⟨suf, hsuf, hx⟩)
    unfold corpus_type.popen_command
    rw [hsuf]
    dsimp only
    rw [if_neg hnsc, if_pos hsc']
  · intro hnb hng
    have hnscb : ¬ strcaseEq suf (".bz2".toList) := by
      intro hx
      exact hnb (hbz.mpr ⟨suf, hsuf, hx⟩)
    have hnscg : ¬ strcaseEq suf (".gz".toList) := by
      intro hx
      exact hng (hgz.mpr ⟨suf, hsuf, hx⟩)
    unfold corpus_type.popen_command
    rw [hsuf]
    dsimp only
    rw [if_neg hnscb, if_neg hnscg]
  · intro St launch cmd hcmd hl
    unfold corpus_type.popen_decompress
    rw [hcmd]
    dsimp only [Option.map]
    rw [hl]

/-- Witness for C9: `x.bz2`, `x.gz` and `x.txt` select the bzip2, gzip
and passthrough commands, and a failing launcher is fatal on `x.txt`. -/
theorem C9_wit :
    corpus_type.popen_command ("x.bz2".toList) = some ("bzcat ".toList ++ "x.bz2".toList) ∧
    corpus_type.popen_command ("x.gz".toList) =
      some ("gunzip -c ".toList ++ "x.gz".toList) ∧
    corpus_type.popen_command ("x.txt".toList) = some ("cat ".toList ++ "x.txt".toList) ∧
    corpus_type.popen_decompress (fun _ => (none : Option Unit)) ("x.txt".toList)
      = some (OpenResult.fatalExit) :=
  ⟨(C9_thm ("x.bz2".toList) (by decide)).1 (by decide),
   (C9_thm ("x.gz".toList) (by decide)).2.1 (by decide) (by decide),
   (C9_thm ("x.txt".toList) (by decide)).2.2.1 (by decide) (by decide),
   (C9_thm ("x.txt".toList) (by decide)).2.2.2 Unit (fun _ => none)
     ("cat ".toList ++ "x.txt".toList)
     ((C9_thm ("x.txt".toList) (by decide)).2.2.1 (by decide) (by decide)) rfl⟩

/-- Counterexample for C9: a filename with no dot does not select the
passthrough command — `strrchr` returns NULL and the `strcasecmp` call
is undefined behavior, modelled as no command at all. -/
theorem C9_cex :
    corpus_type.popen_command ("x".toList) = none ∧
    corpus_type.popen_command ("x".toList) ≠ some ("cat ".toList ++ "x".toList) :=
  ⟨by decide, by decide⟩

/-! Lemmas about deep-copy ownership. -/

theorem pcopy_facts (p : Own.parse V) (c : Nat) :
    c ≤ (Own.pcopy c p).2 ∧
    Own.pval (Own.pcopy c p).1 = Own.pval p ∧
    (∀ i ∈ Own.pids (Own.pcopy c p).1, c ≤ i ∧ i < (Own.pcopy c p).2) := by
  unfold Own.pcopy
  cases hp : p.parse with
  | none =>
    dsimp only
    refine ⟨le_refl c, ?_, ?_⟩
    · simp [Own.pval, hp]
    · intro i hi
      simp [Own.pids] at hi
  | some t =>
    dsimp only
    refine ⟨by omega, ?_, ?_⟩
    · simp [Own.pval, hp]
    · intro i hi
      simp [Own.pids] at hi
      omega

theorem pcopyList_facts :
    ∀ (l : List (Own.parse V)) (c : Nat),
      c ≤ (Own.pcopyList c l).2 ∧
      (Own.pcopyList c l).1.map Own.pval = l.map Own.pval ∧
      (∀ i ∈ ((Own.pcopyList c l).1.map Own.pids).flatten,
        c ≤ i ∧ i < (Own.pcopyList c l).2) := by
  intro l
  induction l with
  | nil =>
    intro c
    refine ⟨le_refl c, rfl, ?_⟩
    intro i hi
    simp [Own.pcopyList] at hi
  | cons p rest ih =>
    intro c
    obtain ⟨h1, h2, h3⟩ := pcopy_facts p c
    obtain ⟨i1, i2, i3⟩ := ih (Own.pcopy c p).2
    refine ⟨le_trans h1 i1, ?_, ?_⟩
    · simp only [Own.pcopyList, List.map_cons]
      rw [h2, i2]
    · intro i hi
      simp only [Own.pcopyList, List.map_cons, List.flatten_cons, List.mem_append] at hi
      rcases hi with hi | hi
      · obtain ⟨ha, hb⟩ := h3 i hi
        exact ⟨ha, lt_of_lt_of_le hb i1⟩
      · obtain ⟨ha, hb⟩ := i3 i hi
        exact ⟨le_trans h1 ha, hb⟩

theorem passignList_facts :
    ∀ (ds ss : List (Own.parse V)) (c : Nat),
      (∀ p ∈ ss, p.parse ≠ none) →
      ∃ r c2, Own.passignList c ds ss = some (r, c2) ∧ c ≤ c2 ∧
        r.map Own.pval = ss.map Own.pval ∧
        (∀ i ∈ (r.map Own.pids).flatten, c ≤ i ∧ i < c2) := by
  intro ds
  induction ds with
  | nil =>
    intro ss c _
    obtain ⟨h1, h2, h3⟩ := pcopyList_facts ss c
    exact ⟨(Own.pcopyList c ss).1, (Own.pcopyList c ss).2, rfl, h1, h2, h3⟩
  | cons dd ds ih =>
    intro ss c hss
    rcases ss with _ | ⟨sp, ss'⟩
    · refine ⟨[], c, rfl, le_refl c, rfl, ?_⟩
      intro i hi
      simp at hi
    · have hsp := hss sp (by simp)
      rcases hp : sp.parse with _ | t
      · exact absurd hp hsp
      · obtain ⟨r, c2, hr, hc2, hmap, hids⟩ :=
          ih ss' (c + 1) (fun p hp2 => hss p (by simp [hp2]))
        refine ⟨{ sp with parse := some ⟨c, t.tval⟩ } :: r, c2, ?_, by omega, ?_, ?_⟩
        · unfold Own.passignList Own.passign
          rw [hp]
          dsimp only
          rw [hr]
        · simp only [List.map_cons]
          rw [hmap]
          simp [Own.pval, hp]
        · intro i hi
          simp only [List.map_cons, List.flatten_cons, List.mem_append] at hi
          rcases hi with hi | hi
          · simp [Own.pids] at hi
            omega
          · obtain ⟨ha, hb⟩ := hids i hi
            exact ⟨by omega, hb⟩

/-- C8 (amended): copy construction of a sentence record deep-copies the
gold tree and every candidate tree — the copy is structurally equal but
shares no allocation with the source, so discarding the source leaves
the copy intact; assignment does the same provided every assigned-from
candidate tree is non-NULL (`parse_type::operator=` dereferences its
source tree unconditionally, so a NULL source tree is undefined
behavior). -/
theorem C8_thm (V : Type) (src dst : Own.sentence V) (pd q : Own.parse V)
    (t : TreeObj V) (c : Nat) :
    ((∀ i ∈ Own.sids src, i < c) →
      Own.goldval (Own.scopy c src).1 = Own.goldval src ∧
      (Own.scopy c src).1.parses.map Own.pval = src.parses.map Own.pval ∧
      ∀ i ∈ Own.sids (Own.scopy c src).1, i ∉ Own.sids src) ∧
    (q.parse = some t → (∀ i ∈ Own.pids q, i < c) →
      Own.passign c pd q = some ({ q with parse := some ⟨c, t.tval⟩ }, c + 1) ∧
      Own.pval ({ q with parse := some (⟨c, t.tval⟩ : TreeObj V) } : Own.parse V)
        = Own.pval q ∧
      ∀ i ∈ Own.pids ({ q with parse := some (⟨c, t.tval⟩ : TreeObj V) } : Own.parse V),
        i ∉ Own.pids q) ∧
    ((∀ p ∈ src.parses, p.parse ≠ none) → (∀ i ∈ Own.sids src, i < c) →
      ∃ out c2, Own.sassign c dst src = some (out, c2) ∧
        Own.goldval out = Own.goldval src ∧
        out.parses.map Own.pval = src.parses.map Own.pval ∧
        ∀ i ∈ Own.sids out, i ∉ Own.sids src) := by
  refine ⟨?_, ?_, ?_⟩
  · intro hlt
    obtain ⟨h1, h2, h3⟩ := pcopyList_facts src.parses c
    have hfresh : ∀ i ∈ Own.sids (Own.scopy c src).1, c ≤ i := by
      intro i hi
      unfold Own.scopy at hi
      cases hg : src.gold with
      | none =>
        rw [hg] at hi
        simp only [Own.sids, List.nil_append] at hi
        exact (h3 i hi).1
      | some g =>
        rw [hg] at hi
        dsimp only at hi
        simp only [Own.sids, List.mem_append, List.mem_singleton] at hi
        rcases hi with hi | hi
        · omega
        · exact (h3 i hi).1
    refine ⟨?_, ?_, ?_⟩
    · unfold Own.scopy
      cases hg : src.gold with
      | none => dsimp only; simp [Own.goldval, hg]
      | some g => dsimp only; simp [Own.goldval, hg]
    · unfold Own.scopy
      cases hg : src.gold with
      | none => dsimp only; simpa using h2
      | some g => dsimp only; simpa using h2
    · intro i hi hmem
      have := hfresh i hi
      have := hlt i hmem
      omega
  · intro hq hlt
    refine ⟨?_, ?_, ?_⟩
    · unfold Own.passign
      rw [hq]
    · simp [Own.pval, hq]
    · intro i hi hmem
      simp [Own.pids] at hi
      have := hlt i hmem
      omega
  · intro hnn hlt
    obtain ⟨r, c2, hr, hc2, hmap, hids⟩ := passignList_facts dst.parses src.parses c hnn
    have hglt : ∀ i ∈ (match src.gold with
        | none => ([] : List Nat)
        | some tg => [tg.oid]), i < c := by
      intro i hi
      apply hlt
      unfold Own.sids
      exact List.mem_append_left _ hi
    cases hg : src.gold with
    | none =>
      refine ⟨{ src with gold := none, parses := r }, c2, ?_, ?_, ?_, ?_⟩
      · unfold Own.sassign
        rw [hr, hg]
      · simp [Own.goldval, hg]
      · simpa using hmap
      · intro i hi hmem
        simp only [Own.sids, List.nil_append] at hi
        obtain ⟨ha, hb⟩ := hids i hi
        have := hlt i hmem
        omega
    | some g =>
      refine ⟨{ src with gold := some ⟨c2, g.tval⟩, parses := r }, c2 + 1, ?_, ?_, ?_, ?_⟩
      · unfold Own.sassign
        rw [hr, hg]
      · simp [Own.goldval, hg]
      · simpa using hmap
      · intro i hi hmem
        simp only [Own.sids, List.mem_append, List.mem_singleton] at hi
        rcases hi with hi | hi
        · have := hlt i hmem
          omega
        · obtain ⟨ha, hb⟩ := hids i hi
          have := hlt i hmem
          omega

/-- Witness for C8: copying a concrete sentence record with fresh
counter 50 deep-copies its gold tree and shares no allocation with the
original. -/
theorem C8_wit :
    (∀ i ∈ Own.sids sentRecSample, i < 50) ∧
    Own.goldval (Own.scopy 50 sentRecSample).1 = Own.goldval sentRecSample ∧
    (∀ i ∈ Own.sids (Own.scopy 50 sentRecSample).1, i ∉ Own.sids sentRecSample) := by
  refine ⟨by decide, ?_, ?_⟩
  · exact ((C8_thm Nat sentRecSample sentRecSample pnullRec pnullRec ⟨0, 0⟩ 50).1
      (by decide)).1
  · exact ((C8_thm Nat sentRecSample sentRecSample pnullRec pnullRec ⟨0, 0⟩ 50).1
      (by decide)).2.2

/-- Counterexample for C8: assigning from a candidate record whose tree
is NULL is not a deep copy — `parse_type::operator=` dereferences the
NULL source pointer (undefined behavior, no result). -/
theorem C8_cex : Own.passign 7 pfullRec pnullRec = none := rfl

/-- C10: `parse_type::operator=` dereferences the source tree pointer
unconditionally — a NULL source tree is undefined behavior (no result)
whereas the copy constructor guards NULL and yields a NULL tree; with a
non-NULL source tree the assignment deep-copies it at a fresh address. -/
theorem C10_thm :
    (∀ (V : Type) (dst : Own.parse V) (lp fs : Rat) (ne nc c : Nat),
      Own.passign c dst ⟨lp, ne, nc, fs, none⟩ = none) ∧
    (∀ (V : Type) (lp fs : Rat) (ne nc c : Nat),
      (Own.pcopy c (⟨lp, ne, nc, fs, none⟩ : Own.parse V)).1.parse = none) ∧
    (∀ (V : Type) (dst src : Own.parse V) (tt : TreeObj V) (c : Nat),
      src.parse = some tt →
      Own.passign c dst src = some ({ src with parse := some ⟨c, tt.tval⟩ }, c + 1)) := by
  refine ⟨fun V dst lp fs ne nc c => rfl, fun V lp fs ne nc c => rfl, ?_⟩
  intro V dst src tt c hsrc
  unfold Own.passign
  rw [hsrc]

/-- Witness for C10: assigning from a record holding tree instance 5
with value 9 at counter 3 yields a copy at fresh instance 3, value 9. -/
theorem C10_wit :
    Own.passign 3 pnullRec pfullRec = some ({ pfullRec with parse := some ⟨3, 9⟩ }, 4) :=
  C10_thm.2.2 Nat pnullRec pfullRec ⟨5, 9⟩ 3 rfl
